import Mathlib

/-!
Shallow embedding of `mltoolbox/pocket_classifier.py` (Pocket binary
classifier).  Real-valued data is modelled with `ℚ`; the numpy arrays
`self.weights` and `self.pocket.best_weights` are modelled as lists of
rationals.  Because the source performs only in-place updates on
`self.weights` (`self.weights[1:] += ...`, `self.weights[0] += ...`) and the
pocket replacement `self.pocket.best_weights = self.weights` binds the very
same array object (no copy), the state tracks an explicit aliasing flag
`pocketAliased`: once a replacement happened, the observable
`pocket.best_weights` is the live weight vector; before the first
replacement it is the zero array created by `Pocket.__init__`, which is
never written to.
-/

namespace PocketClassifier

/-- Vectors of rationals, modelling numpy float arrays. -/
abbrev Vec := List ℚ

/-- The combined state of a `PocketClassifier` object together with its
`Pocket`.  `pocketStale` is the array allocated by `Pocket.__init__`
(observable only while `pocketAliased = false`); `misclassify_count` is
`pocket.misclassify_count`; `label0` and `label1` are `class_labels[0]`
and `class_labels[1]`. -/
structure State (α : Type) where
  weights : Vec
  pocketStale : Vec
  pocketAliased : Bool
  misclassify_count : ℤ
  misclassify_record : List ℤ
  label0 : α
  label1 : α
deriving DecidableEq

/-- `np.zeros n`. -/
def zeros (n : ℕ) : Vec := List.replicate n 0

/-- `PocketClassifier.__init__(number_of_attributes, class_labels)` together
with `Pocket.__init__`: all-zero weight vectors of length `d + 1`, pocket
count sentinel `-1`, empty record. -/
def init (d : ℕ) (l0 l1 : α) : State α :=
  { weights := zeros (d + 1)
    pocketStale := zeros (d + 1)
    pocketAliased := false
    misclassify_count := -1
    misclassify_record := []
    label0 := l0
    label1 := l1 }

/-- The value of `self.pocket.best_weights` observable in state `s`. -/
def bestWeights (s : State α) : Vec :=
  if s.pocketAliased then s.weights else s.pocketStale

/-- `np.inner` of two equal-length vectors. -/
def dot (xs ws : Vec) : ℚ := (List.zipWith (fun a b => a * b) xs ws).sum

/-- `PocketClassifier._linear_combination(sample)`:
`np.inner(sample, self.weights[1:])`. -/
def linearCombination (s : State α) (sample : Vec) : ℚ :=
  dot sample s.weights.tail

/-- The in-place weight update of one inner-loop iteration of `train`:
`self.weights[1:] += np.multiply(update, sample); self.weights[0] += update`.
The weight array of the classifier always has length `d + 1 ≥ 1`, so the
`[]` case is unreachable in reachable states. -/
def updateWeights (w : Vec) (u : ℚ) (sample : Vec) : Vec :=
  match w with
  | [] => []
  | w0 :: rest => (w0 + u) :: List.zipWith (fun wi xi => wi + u * xi) rest sample

/-- One iteration of the inner `for sample, target in zip(...)` loop of
`train`, threading the state and the pass's `misclassifies` counter:
`update = target - np.where(lc >= 0.0, 1, -1)`, weight update, then
`misclassifies += int(update != 0.0)`. -/
def trainSampleStep (s : State α) (m : ℤ) (sample : Vec) (target : ℤ) :
    State α × ℤ :=
  let lc := linearCombination s sample
  let predicted : ℤ := if lc ≥ 0 then 1 else -1
  let update : ℤ := target - predicted
  ({ s with weights := updateWeights s.weights (update : ℚ) sample },
    m + if update = 0 then 0 else 1)

/-- One full pass over the training data: the inner loop of `train`,
returning the state after the pass and the pass's `misclassifies` count. -/
def runPass (s : State α) (samples : List Vec) (targets : List ℤ) :
    State α × ℤ :=
  (samples.zip targets).foldl
    (fun acc p => trainSampleStep acc.1 acc.2 p.1 p.2) (s, 0)

/-- The pocket-replacement condition of `train`:
`(count == -1) or (count > misclassifies) or (misclassifies == 0)`. -/
def pocketReplaces (p m : ℤ) : Prop := p = -1 ∨ p > m ∨ m = 0

instance instDecPocketReplaces (p m : ℤ) : Decidable (pocketReplaces p m) :=
  inferInstanceAs (Decidable (p = -1 ∨ p > m ∨ m = 0))

/-- The pocket comparison after a pass.  On replacement,
`self.pocket.best_weights = self.weights` binds the same array
(`pocketAliased := true`) and the count is overwritten. -/
def pocketUpdate (s : State α) (m : ℤ) : State α :=
  if pocketReplaces s.misclassify_count m then
    { s with pocketAliased := true, misclassify_count := m }
  else s

/-- The pocket count after the comparison, as a function of the old count
and the pass's misclassification count. -/
def combine (p m : ℤ) : ℤ := if pocketReplaces p m then m else p

/-- `self.misclassify_record.append(self.pocket.misclassify_count)`. -/
def appendRecord (s : State α) : State α :=
  { s with misclassify_record := s.misclassify_record ++ [s.misclassify_count] }

/-- The `for _ in range(max_iterator)` loop of `train`, after label
translation: run a pass, do the pocket comparison, `break` on zero
misclassifications, otherwise append `pocket.misclassify_count` to
`misclassify_record` and continue. -/
def trainLoop (samples : List Vec) (targets : List ℤ) :
    ℕ → State α → State α
  | 0, s => s
  | n + 1, s =>
      let pm := runPass s samples targets
      let s2 := pocketUpdate pm.1 pm.2
      if pm.2 = 0 then s2
      else trainLoop samples targets n (appendRecord s2)

/-- One lookup in `self._reversed_label_map`, the dict
`{class_labels[0]: 1, class_labels[1]: -1}` (with last-insertion priority
when the two class labels coincide); a missing key raises `KeyError`,
modelled as `none`. -/
def translateOne [DecidableEq α] (s : State α) (l : α) : Option ℤ :=
  if l = s.label1 then some (-1)
  else if l = s.label0 then some 1
  else none

/-- The label translation
`[self._reversed_label_map[index] for index in labels]`. -/
def translateLabels [DecidableEq α] (s : State α) (labels : List α) :
    Option (List ℤ) :=
  labels.mapM (translateOne s)

/-- `PocketClassifier.train(samples, labels, max_iterator)`.  The label
translation is the first statement of the method, so a `KeyError` there
propagates with the state untouched: `Except.error` carries the state at
the moment of the exception.  `range(max_iterator)` runs
`max_iterator.toNat` times. -/
def train [DecidableEq α] (s : State α) (samples : List Vec)
    (labels : List α) (maxIterator : ℤ) : Except (State α) (State α) :=
  match translateLabels s labels with
  | none => Except.error s
  | some targets => Except.ok (trainLoop samples targets maxIterator.toNat s)

/-- The dict `self._label_map = {1: class_labels[0], -1: class_labels[1]}`,
applied only to outputs of `np.where(..., 1, -1)`. -/
def label_map (s : State α) (code : ℤ) : α :=
  if code = 1 then s.label0 else s.label1

/-- `PocketClassifier.classify(new_data)`: per row,
`np.where(np.inner(row, weights[1:]) + weights[0] >= 0.0, 1, -1)` mapped
through `_label_map`.  Reads the live `self.weights`, never the pocket. -/
def classify (s : State α) (newData : List Vec) : List α :=
  newData.map fun sample =>
    label_map s
      (if linearCombination s sample + s.weights.headD 0 ≥ 0 then 1 else -1)

/-- Observation trace of one `train` call after label translation: for each
completed pass, the state right after the pocket comparison paired with the
pass's `misclassifies` count. -/
def passTrace (samples : List Vec) (targets : List ℤ) :
    ℕ → State α → List (State α × ℤ)
  | 0, _ => []
  | n + 1, s =>
      let pm := runPass s samples targets
      let s2 := pocketUpdate pm.1 pm.2
      if pm.2 = 0 then [(s2, pm.2)]
      else (s2, pm.2) :: passTrace samples targets n (appendRecord s2)

/-- The state of the classifier object after a `train` call returns or
raises: on `KeyError` the state is unchanged. -/
def afterTrain [DecidableEq α] (s : State α) (samples : List Vec)
    (labels : List α) (maxIterator : ℤ) : State α :=
  match train s samples labels maxIterator with
  | Except.ok s2 => s2
  | Except.error s2 => s2

/-- Observation trace of a sequence of `train` calls
`(samples, labels, max_iterator)`: the concatenation of the per-call pass
traces, threading the object state from call to call.  A call whose label
translation raises contributes no passes and leaves the state unchanged. -/
def callTrace [DecidableEq α] :
    State α → List (List Vec × List α × ℤ) → List (State α × ℤ)
  | _, [] => []
  | s, c :: cs =>
      (match translateLabels s c.2.1 with
       | none => []
       | some targets => passTrace c.1 targets c.2.2.toNat s) ++
        callTrace (afterTrain s c.1 c.2.1 c.2.2) cs

/-- Whether a completed `train` call stopped because its last pass achieved
zero misclassifications. -/
def stoppedAtZero (t : List (State α × ℤ)) : Bool :=
  match t.getLast? with
  | none => false
  | some e => decide (e.2 = 0)

/-- The 12 training samples of the module docstring example. -/
def canonSamples : List Vec :=
  [[51/10, 35/10, 14/10, 2/10],
   [49/10, 30/10, 14/10, 2/10],
   [47/10, 32/10, 13/10, 2/10],
   [46/10, 31/10, 15/10, 2/10],
   [50/10, 36/10, 14/10, 2/10],
   [54/10, 39/10, 17/10, 4/10],
   [70/10, 32/10, 47/10, 14/10],
   [64/10, 32/10, 45/10, 15/10],
   [69/10, 31/10, 49/10, 15/10],
   [55/10, 23/10, 40/10, 13/10],
   [65/10, 28/10, 46/10, 15/10],
   [57/10, 28/10, 45/10, 13/10]]

/-- The labels of the docstring example, drawn from `class_labels = (-1, 1)`. -/
def canonLabels : List ℤ :=
  [-1, -1, -1, -1, -1, -1, 1, 1, 1, 1, 1, 1]

/-- The numeric codes of `canonLabels` under
`_reversed_label_map = {-1: 1, 1: -1}`. -/
def canonTargets : List ℤ :=
  [1, 1, 1, 1, 1, 1, -1, -1, -1, -1, -1, -1]

/-- The two query points of the docstring example. -/
def canonNewData : List Vec :=
  [[63/10, 33/10, 47/10, 16/10], [46/10, 34/10, 14/10, 3/10]]

/-- A two-point data set in one dimension: `[1.0]` labelled `-1` and
`[0.9]` labelled `1` (for `class_labels = (-1, 1)`). -/
def sepSamples : List Vec := [[1], [9/10]]

/-- The labels of `sepSamples`, drawn from `class_labels = (-1, 1)`. -/
def sepLabels : List ℤ := [-1, 1]

/-- The numeric codes of `sepLabels` under `_reversed_label_map`. -/
def sepTargets : List ℤ := [1, -1]

/-- The observable classifier state right after the pocket comparison of
pass 1 of `train(canonSamples, canonLabels, 10)` on a fresh classifier. -/
def canonState1 : State ℤ :=
  { weights := [-2, -14, -32/5, -47/5, -14/5]
    pocketStale := zeros 5
    pocketAliased := true
    misclassify_count := 1
    misclassify_record := []
    label0 := -1
    label1 := 1 }

/-- The observable state right after the pocket comparison of pass 2. -/
def canonState2 : State ℤ :=
  { weights := [0, -8, 1/5, -66/5, -24/5]
    pocketStale := zeros 5
    pocketAliased := true
    misclassify_count := 1
    misclassify_record := [1]
    label0 := -1
    label1 := 1 }

/-- The observable state right after the pocket comparison of pass 3. -/
def canonState3 : State ℤ :=
  { weights := [2, 11/5, 36/5, -52/5, -22/5]
    pocketStale := zeros 5
    pocketAliased := true
    misclassify_count := 1
    misclassify_record := [1, 1]
    label0 := -1
    label1 := 1 }

/-- The observable state right after the pocket comparison of pass 4, which
achieves zero misclassifications and is also the final state of the call. -/
def canonState4 : State ℤ :=
  { weights := [2, 11/5, 36/5, -52/5, -22/5]
    pocketStale := zeros 5
    pocketAliased := true
    misclassify_count := 0
    misclassify_record := [1, 1, 1]
    label0 := -1
    label1 := 1 }

/-- Strict linear separability of a labelled data set, in the sign
convention of the classifier: samples labelled `l0` lie strictly on the
nonnegative side of the boundary `dot x w + w0 = 0` and samples labelled
`l1` strictly on the negative side. -/
def strictlySeparates (w0 : ℚ) (w : Vec) (samples : List Vec)
    (labels : List α) (l0 l1 : α) : Prop :=
  samples.length = labels.length ∧
    ∀ p ∈ samples.zip labels,
      (p.2 = l0 → dot p.1 w + w0 > 0) ∧ (p.2 = l1 → dot p.1 w + w0 < 0)

end PocketClassifier

namespace PocketClassifier

variable {α : Type}

/-- Unfolding lemma for `updateWeights` on a nonempty weight vector. -/
theorem updateWeights_cons (w0 : ℚ) (rest : Vec) (u : ℚ) (sample : Vec) :
    updateWeights (w0 :: rest) u sample =
      (w0 + u) :: List.zipWith (fun wi xi => wi + u * xi) rest sample := rfl

/-- A sample step never decreases the running misclassification counter. -/
theorem trainSampleStep_snd_le (s : State α) (m : ℤ) (x : Vec) (t : ℤ) :
    m ≤ (trainSampleStep s m x t).2 := by
  unfold trainSampleStep
  dsimp only
  split <;> omega

/-- The inner fold of a pass never decreases the counter. -/
theorem foldl_trainSampleStep_le (l : List (Vec × ℤ)) :
    ∀ (s : State α) (m : ℤ),
      m ≤ (l.foldl (fun acc p => trainSampleStep acc.1 acc.2 p.1 p.2) (s, m)).2 := by
  induction l with
  | nil => intro s m; simp
  | cons p l ih =>
      intro s m
      simp only [List.foldl_cons]
      have h1 := trainSampleStep_snd_le s m p.1 p.2
      have h2 := ih (trainSampleStep s m p.1 p.2).1 (trainSampleStep s m p.1 p.2).2
      calc m ≤ (trainSampleStep s m p.1 p.2).2 := h1
        _ ≤ _ := by simpa using h2

/-- A pass reports a nonnegative misclassification count. -/
theorem runPass_snd_nonneg (s : State α) (samples : List Vec)
    (targets : List ℤ) : 0 ≤ (runPass s samples targets).2 :=
  foldl_trainSampleStep_le (samples.zip targets) s 0

/-- The pocket comparison only changes the aliasing flag and the count. -/
theorem pocketUpdate_weights (s : State α) (m : ℤ) :
    (pocketUpdate s m).weights = s.weights := by
  unfold pocketUpdate; split <;> rfl

/-- The pocket comparison does not touch the record. -/
theorem pocketUpdate_record (s : State α) (m : ℤ) :
    (pocketUpdate s m).misclassify_record = s.misclassify_record := by
  unfold pocketUpdate; split <;> rfl

/-- The pocket count after the comparison is `combine` of old count and
pass count. -/
theorem pocketUpdate_count (s : State α) (m : ℤ) :
    (pocketUpdate s m).misclassify_count = combine s.misclassify_count m := by
  unfold pocketUpdate combine; split <;> rfl

/-- On an initialized pocket, the comparison keeps the smaller count. -/
theorem combine_eq_min (p m : ℤ) (hp : 0 ≤ p) (hm : 0 ≤ m) :
    combine p m = min p m := by
  simp only [combine, pocketReplaces]
  rw [min_def]
  split <;> split <;> omega

/-- On the sentinel, the comparison always adopts the pass count. -/
theorem combine_sentinel (m : ℤ) : combine (-1) m = m := by
  simp [combine, pocketReplaces]

/-- `combine` never increases an initialized pocket count. -/
theorem combine_le (p m : ℤ) (hp : 0 ≤ p) (hm : 0 ≤ m) : combine p m ≤ p := by
  rw [combine_eq_min p m hp hm]; exact min_le_left p m

/-- Appending to the record keeps the pocket count. -/
theorem appendRecord_count (s : State α) :
    (appendRecord s).misclassify_count = s.misclassify_count := rfl

/-- Appending to the record keeps the weights. -/
theorem appendRecord_weights (s : State α) :
    (appendRecord s).weights = s.weights := rfl

/-- The record after `appendRecord`. -/
theorem appendRecord_record (s : State α) :
    (appendRecord s).misclassify_record =
      s.misclassify_record ++ [s.misclassify_count] := rfl

/-- A sample step touches only the weight vector. -/
theorem trainSampleStep_fst (s : State α) (m : ℤ) (x : Vec) (t : ℤ) :
    (trainSampleStep s m x t).1 =
      { s with weights := (trainSampleStep s m x t).1.weights } := rfl

/-- The inner fold of a pass touches only the weight vector. -/
theorem foldl_trainSampleStep_fst (l : List (Vec × ℤ)) :
    ∀ (s : State α) (m : ℤ),
      (l.foldl (fun acc p => trainSampleStep acc.1 acc.2 p.1 p.2) (s, m)).1 =
        { s with
          weights :=
            (l.foldl (fun acc p => trainSampleStep acc.1 acc.2 p.1 p.2) (s, m)).1.weights } := by
  induction l with
  | nil => intro s m; rfl
  | cons p l ih =>
      intro s m
      simp only [List.foldl_cons]
      have h := ih (trainSampleStep s m p.1 p.2).1 (trainSampleStep s m p.1 p.2).2
      calc (l.foldl (fun acc p => trainSampleStep acc.1 acc.2 p.1 p.2)
              ((trainSampleStep s m p.1 p.2).1, (trainSampleStep s m p.1 p.2).2)).1
          = _ := by rw [h]; rfl

/-- A pass preserves the pocket count. -/
theorem runPass_count (s : State α) (samples : List Vec) (targets : List ℤ) :
    (runPass s samples targets).1.misclassify_count = s.misclassify_count := by
  rw [runPass, foldl_trainSampleStep_fst]

/-- A pass preserves the record. -/
theorem runPass_record (s : State α) (samples : List Vec) (targets : List ℤ) :
    (runPass s samples targets).1.misclassify_record = s.misclassify_record := by
  rw [runPass, foldl_trainSampleStep_fst]

/-- Every pass count recorded in a trace is nonnegative. -/
theorem passTrace_snd_nonneg (samples : List Vec) (targets : List ℤ) :
    ∀ (fuel : ℕ) (s : State α), ∀ e ∈ passTrace samples targets fuel s, 0 ≤ e.2 := by
  intro fuel
  induction fuel with
  | zero => intro s e he; simp [passTrace] at he
  | succ n ih =>
      intro s e he
      simp only [passTrace] at he
      split at he
      · simp only [List.mem_singleton] at he
        subst he
        exact runPass_snd_nonneg s samples targets
      · rcases List.mem_cons.mp he with h | h
        · subst h
          exact runPass_snd_nonneg s samples targets
        · exact ih _ e h

/-- The pocket count stored in the `k`-th trace entry is the fold of
`combine` over the starting pocket count and the pass counts up to and
including pass `k`. -/
theorem passTrace_count_getElem (samples : List Vec) (targets : List ℤ) :
    ∀ (fuel : ℕ) (s : State α) (k : ℕ)
      (h : k < (passTrace samples targets fuel s).length),
      ((passTrace samples targets fuel s)[k]).1.misclassify_count
        = List.foldl combine s.misclassify_count
            (((passTrace samples targets fuel s).map Prod.snd).take (k + 1)) := by
  intro fuel
  induction fuel with
  | zero => intro s k h; simp [passTrace] at h
  | succ n ih =>
      intro s k h
      by_cases hm : (runPass s samples targets).2 = 0
      · have ht : passTrace samples targets (n + 1) s =
            [(pocketUpdate (runPass s samples targets).1 (runPass s samples targets).2,
              (runPass s samples targets).2)] := by
          simp [passTrace, hm]
        rw [ht] at h
        simp only [List.length_singleton] at h
        interval_cases k
        simp only [ht]
        simp [pocketUpdate_count, runPass_count]
      · have ht : passTrace samples targets (n + 1) s =
            (pocketUpdate (runPass s samples targets).1 (runPass s samples targets).2,
              (runPass s samples targets).2) ::
              passTrace samples targets n
                (appendRecord
                  (pocketUpdate (runPass s samples targets).1
                    (runPass s samples targets).2)) := by
          simp [passTrace, hm]
        rw [ht] at h
        simp only [ht]
        cases k with
        | zero =>
            simp [pocketUpdate_count, runPass_count]
        | succ k =>
            simp only [List.length_cons] at h
            have hk : k < (passTrace samples targets n
                (appendRecord
                  (pocketUpdate (runPass s samples targets).1
                    (runPass s samples targets).2))).length := by
              omega
            rw [List.getElem_cons_succ]
            rw [ih _ k hk]
            simp only [List.map_cons, List.take_succ_cons, List.foldl_cons]
            congr 1
            simp [appendRecord_count, pocketUpdate_count, runPass_count]

/-- The pocket count after a whole `train` loop is the fold of `combine`
over all pass counts of its trace. -/
theorem trainLoop_count (samples : List Vec) (targets : List ℤ) :
    ∀ (fuel : ℕ) (s : State α),
      (trainLoop samples targets fuel s).misclassify_count
        = List.foldl combine s.misclassify_count
            ((passTrace samples targets fuel s).map Prod.snd) := by
  intro fuel
  induction fuel with
  | zero => intro s; simp [trainLoop, passTrace]
  | succ n ih =>
      intro s
      by_cases hm : (runPass s samples targets).2 = 0
      · simp only [trainLoop, passTrace, hm, if_true]
        simp [pocketUpdate_count, runPass_count]
      · simp only [trainLoop, passTrace, hm, if_false]
        rw [ih]
        simp only [List.map_cons, List.foldl_cons]
        congr 1
        simp [appendRecord_count, pocketUpdate_count, runPass_count]

theorem stoppedAtZero_nil : stoppedAtZero ([] : List (State α × ℤ)) = false := rfl

theorem stoppedAtZero_singleton (e : State α × ℤ) :
    stoppedAtZero [e] = decide (e.2 = 0) := rfl

theorem stoppedAtZero_cons_cons (e a : State α × ℤ) (l : List (State α × ℤ)) :
    stoppedAtZero (e :: a :: l) = stoppedAtZero (a :: l) := by
  simp [stoppedAtZero, List.getLast?_cons_cons]

/-- The record after a whole `train` loop: the starting record, extended by
the pocket count of every completed pass except a final pass that achieved
zero misclassifications. -/
theorem trainLoop_record (samples : List Vec) (targets : List ℤ) :
    ∀ (fuel : ℕ) (s : State α),
      (trainLoop samples targets fuel s).misclassify_record =
        s.misclassify_record ++
          (if stoppedAtZero (passTrace samples targets fuel s)
           then ((passTrace samples targets fuel s).map
              fun e => e.1.misclassify_count).dropLast
           else (passTrace samples targets fuel s).map
              fun e => e.1.misclassify_count) := by
  intro fuel
  induction fuel with
  | zero => intro s; simp [trainLoop, passTrace, stoppedAtZero_nil]
  | succ n ih =>
      intro s
      by_cases hm : (runPass s samples targets).2 = 0
      · simp only [trainLoop, passTrace, hm, if_true]
        simp [stoppedAtZero_singleton, hm, pocketUpdate_record, runPass_record]
      · simp only [trainLoop, passTrace, hm, if_false]
        rw [ih]
        cases hq : passTrace samples targets n
            (appendRecord
              (pocketUpdate (runPass s samples targets).1
                (runPass s samples targets).2)) with
        | nil =>
            simp [stoppedAtZero_nil, stoppedAtZero_singleton, hm,
              appendRecord_record, pocketUpdate_record, runPass_record]
        | cons a l =>
            rw [stoppedAtZero_cons_cons]
            simp only [List.map_cons]
            rw [List.dropLast_cons₂]
            simp only [appendRecord_record, appendRecord_count,
              pocketUpdate_record, runPass_record]
            by_cases hz : stoppedAtZero (a :: l)
            · simp [hz]
            · simp [hz]

/-- A fold of `min` over nonnegative integers stays nonnegative. -/
theorem foldl_min_nonneg :
    ∀ (cs : List ℤ) (c : ℤ), 0 ≤ c → (∀ x ∈ cs, 0 ≤ x) →
      0 ≤ List.foldl min c cs := by
  intro cs
  induction cs with
  | nil => intro c hc _; simpa
  | cons a l ih =>
      intro c hc h
      simp only [List.foldl_cons]
      exact ih (min c a) (le_min hc (h a (List.mem_cons_self a l))) fun x hx =>
        h x (List.mem_cons_of_mem a hx)

/-- Over nonnegative counts with an initialized start, the pocket fold is
the fold of `min`. -/
theorem foldl_combine_eq_min :
    ∀ (cs : List ℤ) (c : ℤ), 0 ≤ c → (∀ x ∈ cs, 0 ≤ x) →
      List.foldl combine c cs = List.foldl min c cs := by
  intro cs
  induction cs with
  | nil => intro c _ _; rfl
  | cons a l ih =>
      intro c hc h
      simp only [List.foldl_cons]
      rw [combine_eq_min c a hc (h a (List.mem_cons_self a l))]
      exact ih (min c a) (le_min hc (h a (List.mem_cons_self a l))) fun x hx =>
        h x (List.mem_cons_of_mem a hx)

/-- `List.min?` of a nonempty list as a fold. -/
theorem min?_cons_foldl (a : ℤ) (l : List ℤ) :
    (a :: l).min? = some (List.foldl min a l) := rfl

/-- The pocket fold from the sentinel over a nonempty nonnegative list
computes the minimum of the list. -/
theorem min?_eq_foldl_combine (a : ℤ) (l : List ℤ)
    (h : ∀ x ∈ a :: l, 0 ≤ x) :
    (a :: l).min? = some (List.foldl combine (-1) (a :: l)) := by
  rw [min?_cons_foldl, List.foldl_cons, combine_sentinel]
  rw [foldl_combine_eq_min l a (h a (List.mem_cons_self a l)) fun x hx =>
    h x (List.mem_cons_of_mem a hx)]

/-- A failing label translation leaves the object unchanged. -/
theorem afterTrain_none [DecidableEq α] (s : State α) (samples : List Vec)
    (labels : List α) (mi : ℤ) (h : translateLabels s labels = none) :
    afterTrain s samples labels mi = s := by
  simp [afterTrain, train, h]

/-- A successful label translation runs the loop. -/
theorem afterTrain_some [DecidableEq α] (s : State α) (samples : List Vec)
    (labels : List α) (mi : ℤ) (ts : List ℤ)
    (h : translateLabels s labels = some ts) :
    afterTrain s samples labels mi = trainLoop samples ts mi.toNat s := by
  simp [afterTrain, train, h]

/-- Every pass count in a call trace is nonnegative. -/
theorem callTrace_snd_nonneg [DecidableEq α] :
    ∀ (calls : List (List Vec × List α × ℤ)) (s : State α),
      ∀ e ∈ callTrace s calls, 0 ≤ e.2 := by
  intro calls
  induction calls with
  | nil => intro s e he; simp [callTrace] at he
  | cons c cs ih =>
      intro s e he
      simp only [callTrace] at he
      rcases List.mem_append.mp he with h | h
      · cases htr : translateLabels s c.2.1 with
        | none => rw [htr] at h; simp at h
        | some ts =>
            rw [htr] at h
            exact passTrace_snd_nonneg c.1 ts c.2.2.toNat s e h
      · exact ih _ e h

/-- The pocket count stored in the `k`-th entry of a call trace is the fold
of `combine` over the starting pocket count and the pass counts up to and
including pass `k`. -/
theorem callTrace_count_getElem [DecidableEq α] :
    ∀ (calls : List (List Vec × List α × ℤ)) (s : State α) (k : ℕ)
      (h : k < (callTrace s calls).length),
      ((callTrace s calls)[k]).1.misclassify_count
        = List.foldl combine s.misclassify_count
            (((callTrace s calls).map Prod.snd).take (k + 1)) := by
  intro calls
  induction calls with
  | nil => intro s k h; simp [callTrace] at h
  | cons c cs ih =>
      intro s k h
      cases htr : translateLabels s c.2.1 with
      | none =>
          have hct : callTrace s (c :: cs) = callTrace s cs := by
            simp [callTrace, htr, afterTrain_none s c.1 c.2.1 c.2.2 htr]
          rw [hct] at h
          simp only [hct]
          exact ih s k h
      | some ts =>
          have hct : callTrace s (c :: cs) =
              passTrace c.1 ts c.2.2.toNat s ++
                callTrace (trainLoop c.1 ts c.2.2.toNat s) cs := by
            simp [callTrace, htr, afterTrain_some s c.1 c.2.1 c.2.2 ts htr]
          rw [hct] at h
          simp only [hct]
          simp only [List.length_append] at h
          by_cases hk : k < (passTrace c.1 ts c.2.2.toNat s).length
          · rw [List.getElem_append_left hk]
            rw [List.map_append,
              List.take_append_of_le_length (by simpa using hk)]
            exact passTrace_count_getElem c.1 ts c.2.2.toNat s k hk
          · push_neg at hk
            have hk2 : k - (passTrace c.1 ts c.2.2.toNat s).length <
                (callTrace (trainLoop c.1 ts c.2.2.toNat s) cs).length := by
              omega
            rw [List.getElem_append_right hk]
            rw [ih (trainLoop c.1 ts c.2.2.toNat s)
              (k - (passTrace c.1 ts c.2.2.toNat s).length) hk2]
            rw [trainLoop_count]
            rw [List.map_append, List.take_append_eq_append_take]
            rw [show ((passTrace c.1 ts c.2.2.toNat s).map Prod.snd).take (k + 1)
                = (passTrace c.1 ts c.2.2.toNat s).map Prod.snd from
              List.take_of_length_le (by simp; omega)]
            rw [List.foldl_append]
            have hidx : k + 1 - ((passTrace c.1 ts c.2.2.toNat s).map Prod.snd).length
                = (k - (passTrace c.1 ts c.2.2.toNat s).length) + 1 := by
              simp only [List.length_map]; omega
            rw [hidx]

/-- The pocket fold from the sentinel over a nonempty nonnegative list is
nonnegative. -/
theorem foldl_combine_nonneg (cs : List ℤ) (h : ∀ x ∈ cs, 0 ≤ x)
    (hne : cs ≠ []) : 0 ≤ List.foldl combine (-1) cs := by
  cases cs with
  | nil => exact absurd rfl hne
  | cons a l =>
      rw [List.foldl_cons, combine_sentinel]
      rw [foldl_combine_eq_min l a (h a (List.mem_cons_self a l)) fun x hx =>
        h x (List.mem_cons_of_mem a hx)]
      exact foldl_min_nonneg l a (h a (List.mem_cons_self a l)) fun x hx =>
        h x (List.mem_cons_of_mem a hx)

/-- A dot product against an all-zero vector vanishes. -/
theorem dot_replicate_zero (xs : Vec) :
    ∀ n : ℕ, dot xs (List.replicate n 0) = 0 := by
  induction xs with
  | nil => intro n; simp [dot]
  | cons x xs ih =>
      intro n
      cases n with
      | zero => simp [dot]
      | succ n =>
          have hx := ih n
          simp only [dot] at hx ⊢
          simp [List.replicate_succ, hx]

/-- Labels all drawn from the class-label domain translate successfully. -/
theorem translateLabels_total [DecidableEq α] (s : State α) :
    ∀ (labels : List α), (∀ l ∈ labels, l = s.label0 ∨ l = s.label1) →
      ∃ ts, translateLabels s labels = some ts := by
  intro labels
  induction labels with
  | nil => intro _; exact ⟨[], rfl⟩
  | cons l ls ih =>
      intro h
      obtain ⟨ts, hts⟩ := ih fun x hx => h x (List.mem_cons_of_mem l hx)
      have hc : ∃ c : ℤ, translateOne s l = some c := by
        by_cases h1 : l = s.label1
        · exact ⟨-1, by unfold translateOne; rw [if_pos h1]⟩
        · rcases h l (List.mem_cons_self l ls) with h0 | h0
          · exact ⟨1, by unfold translateOne; rw [if_neg h1, if_pos h0]⟩
          · exact absurd h0 h1
      obtain ⟨c, hcc⟩ := hc
      refine ⟨c :: ts, ?_⟩
      have hts2 : List.mapM (translateOne s) ls = some ts := hts
      show List.mapM (translateOne s) (l :: ls) = some (c :: ts)
      rw [List.mapM_cons]
      simp only [hcc, hts2]
      rfl

/-- A label outside the class-label domain makes translation raise. -/
theorem translateLabels_fails [DecidableEq α] (s : State α) :
    ∀ (labels : List α), (∃ l ∈ labels, l ≠ s.label0 ∧ l ≠ s.label1) →
      translateLabels s labels = none := by
  intro labels
  induction labels with
  | nil => intro h; simp at h
  | cons l ls ih =>
      intro h
      rcases h with ⟨x, hx, hx0, hx1⟩
      rcases List.mem_cons.mp hx with rfl | hmem
      · have hone : translateOne s x = none := by
          unfold translateOne; rw [if_neg hx1, if_neg hx0]
        show List.mapM (translateOne s) (x :: ls) = none
        rw [List.mapM_cons, hone]
        rfl
      · have hls : List.mapM (translateOne s) ls = none := ih ⟨x, hmem, hx0, hx1⟩
        show List.mapM (translateOne s) (l :: ls) = none
        rw [List.mapM_cons]
        simp only [hls]
        cases translateOne s l <;> rfl

/-- Claim C2: for every classifier state and every input sequence
`new_data`, `classify` returns one label per input sample in order:
`class_labels[0]` when `dot(new_data[i], weights[1:]) + weights[0] >= 0.0`
and `class_labels[1]` otherwise, computed with the live training weight
vector; the pocket fields are irrelevant to the result. -/
theorem claim_C2 (s : State α) (newData : List Vec) (ps : Vec) (pa : Bool)
    (mc : ℤ) (mr : List ℤ) :
    classify s newData =
        newData.map (fun x =>
          if dot x s.weights.tail + s.weights.headD 0 ≥ 0 then s.label0
          else s.label1)
      ∧ (classify s newData).length = newData.length
      ∧ classify
          (State.mk s.weights ps pa mc mr s.label0 s.label1) newData
          = classify s newData := by
  have hfun : (fun sample =>
      label_map s
        (if linearCombination s sample + s.weights.headD 0 ≥ 0 then 1 else -1))
      = fun x =>
        if dot x s.weights.tail + s.weights.headD 0 ≥ 0 then s.label0
        else s.label1 := by
    funext x
    by_cases hx : dot x s.weights.tail + s.weights.headD 0 ≥ 0
    · simp [label_map, linearCombination, hx]
    · simp [label_map, linearCombination, hx]
  refine ⟨?_, ?_, rfl⟩
  · rw [classify, hfun]
  · simp [classify]

/-- Claim C7: a freshly constructed classifier has an all-zero weight
vector of length `d + 1`, and `classify` maps every input to the first
class label, because the all-zero linear combination satisfies `>= 0.0`. -/
theorem claim_C7 (d : ℕ) (l0 l1 : α) (xs : List Vec) (hd : 0 < d)
    (hl : l0 ≠ l1) :
    (init d l0 l1).weights = zeros (d + 1)
      ∧ classify (init d l0 l1) xs = xs.map fun _ => l0 := by
  refine ⟨rfl, ?_⟩
  have hfun : (fun sample =>
      label_map (init d l0 l1)
        (if linearCombination (init d l0 l1) sample +
            (init d l0 l1).weights.headD 0 ≥ 0 then 1 else -1))
      = fun _ : Vec => l0 := by
    funext x
    have hlc : linearCombination (init d l0 l1) x = 0 := by
      show dot x (List.replicate (d + 1) (0 : ℚ)).tail = 0
      rw [List.replicate_succ]
      exact dot_replicate_zero x d
    have hhd : (init d l0 l1).weights.headD 0 = 0 := by
      show (List.replicate (d + 1) (0 : ℚ)).headD 0 = 0
      rw [List.replicate_succ]
      rfl
    rw [hlc, hhd]
    norm_num [label_map, init]
  rw [classify, hfun]

/-- Witness for claim C7 at `d = 2`, labels `(0, 1)`, one input sample. -/
theorem claim_C7_witness :
    0 < 2 ∧ (0 : ℤ) ≠ 1
      ∧ ((init 2 (0 : ℤ) 1).weights = zeros 3
          ∧ classify (init 2 (0 : ℤ) 1) [[1, 2]] = [0]) :=
  ⟨by norm_num, by norm_num, claim_C7 2 0 1 [[1, 2]] (by norm_num) (by norm_num)⟩

/-- Claim C9: `train` with `max_iterations <= 0` and labels from the class
domain executes no pass and returns with the entire state unchanged. -/
theorem claim_C9 [DecidableEq α] (s : State α) (samples : List Vec)
    (labels : List α) (mi : ℤ) (hmi : mi ≤ 0)
    (hl : ∀ l ∈ labels, l = s.label0 ∨ l = s.label1) :
    train s samples labels mi = Except.ok s := by
  obtain ⟨ts, hts⟩ := translateLabels_total s labels hl
  unfold train
  rw [hts]
  have h0 : mi.toNat = 0 := by omega
  rw [h0]
  rfl

/-- Witness for claim C9 on a fresh classifier with labels `(5, 7)`. -/
theorem claim_C9_witness :
    (0 : ℤ) ≤ 0
      ∧ (∀ l ∈ [(5 : ℤ), 7],
          l = (init 1 (5 : ℤ) 7).label0 ∨ l = (init 1 (5 : ℤ) 7).label1)
      ∧ train (init 1 (5 : ℤ) 7) [[1]] [5, 7] 0 = Except.ok (init 1 5 7) :=
  ⟨le_refl 0, by decide,
    claim_C9 (init 1 (5 : ℤ) 7) [[1]] [5, 7] 0 (le_refl 0) (by decide)⟩

/-- Claim C10: a label outside the class domain makes `train` raise during
the initial label translation, before any pass, leaving the state exactly
as it was. -/
theorem claim_C10 [DecidableEq α] (s : State α) (samples : List Vec)
    (labels : List α) (mi : ℤ)
    (hl : ∃ l ∈ labels, l ≠ s.label0 ∧ l ≠ s.label1) :
    train s samples labels mi = Except.error s := by
  unfold train
  rw [translateLabels_fails s labels hl]

/-- Witness for claim C10: label `9` is outside the domain `(5, 7)`. -/
theorem claim_C10_witness :
    (∃ l ∈ [(9 : ℤ)],
        l ≠ (init 1 (5 : ℤ) 7).label0 ∧ l ≠ (init 1 (5 : ℤ) 7).label1)
      ∧ train (init 1 (5 : ℤ) 7) [[1]] [9] 3 = Except.error (init 1 5 7) :=
  ⟨by decide, claim_C10 (init 1 (5 : ℤ) 7) [[1]] [9] 3 (by decide)⟩

/-- Claim C8: `train` on an empty sample list with `max_iterations >= 1`
does zero weight updates, records zero misclassifications, replaces the
pocket with the (all-zero) weights and count `0`, appends nothing to the
record, and stops after the single pass. -/
theorem claim_C8 [DecidableEq α] (d : ℕ) (l0 l1 : α) (mi : ℤ)
    (hmi : 1 ≤ mi) :
    train (init d l0 l1) [] [] mi = Except.ok (afterTrain (init d l0 l1) [] [] mi)
      ∧ (afterTrain (init d l0 l1) [] [] mi).weights = zeros (d + 1)
      ∧ bestWeights (afterTrain (init d l0 l1) [] [] mi) = zeros (d + 1)
      ∧ (afterTrain (init d l0 l1) [] [] mi).misclassify_count = 0
      ∧ (afterTrain (init d l0 l1) [] [] mi).misclassify_record = []
      ∧ passTrace [] [] mi.toNat (init d l0 l1) =
          [(afterTrain (init d l0 l1) [] [] mi, 0)] := by
  have htr : translateLabels (init d l0 l1) ([] : List α) = some [] := rfl
  have hfa : afterTrain (init d l0 l1) [] [] mi =
      trainLoop [] [] mi.toNat (init d l0 l1) :=
    afterTrain_some (init d l0 l1) [] [] mi [] htr
  obtain ⟨n, hn⟩ : ∃ n, mi.toNat = n + 1 := ⟨mi.toNat - 1, by omega⟩
  have hrun : runPass (init d l0 l1) ([] : List Vec) ([] : List ℤ) =
      (init d l0 l1, 0) := rfl
  have hrep : pocketReplaces (init d l0 l1 : State α).misclassify_count 0 :=
    Or.inl rfl
  have hpu : pocketUpdate (init d l0 l1) 0 =
      { init d l0 l1 with pocketAliased := true, misclassify_count := 0 } :=
    if_pos hrep
  have hloop : trainLoop [] [] mi.toNat (init d l0 l1) =
      { init d l0 l1 with pocketAliased := true, misclassify_count := 0 } := by
    rw [hn]
    show (if (0 : ℤ) = 0 then pocketUpdate (init d l0 l1) 0
        else trainLoop [] [] n (appendRecord (pocketUpdate (init d l0 l1) 0))) = _
    rw [if_pos rfl, hpu]
  have htrace : passTrace [] [] mi.toNat (init d l0 l1) =
      [({ init d l0 l1 with pocketAliased := true, misclassify_count := 0 }, 0)] := by
    rw [hn]
    show (if (0 : ℤ) = 0 then [(pocketUpdate (init d l0 l1) 0, (0 : ℤ))]
        else (pocketUpdate (init d l0 l1) 0, (0 : ℤ)) ::
          passTrace [] [] n (appendRecord (pocketUpdate (init d l0 l1) 0))) = _
    rw [if_pos rfl, hpu]
  refine ⟨?_, ?_, ?_, ?_, ?_, ?_⟩
  · have h1 : train (init d l0 l1) ([] : List Vec) ([] : List α) mi
        = Except.ok (trainLoop [] [] mi.toNat (init d l0 l1)) := rfl
    rw [h1, hfa]
  · rw [hfa, hloop]; rfl
  · rw [hfa, hloop]; rfl
  · rw [hfa, hloop]
  · rw [hfa, hloop]; rfl
  · rw [htrace, hfa, hloop]

/-- Label translation of the canonical example. -/
theorem canonTranslate :
    translateLabels (init 4 (-1 : ℤ) 1) canonLabels = some canonTargets := by
  decide

/-- The full pass trace of `train(canonSamples, canonLabels, 10)` on a
fresh classifier: four passes with misclassification counts 1, 3, 1, 0. -/
theorem canonTrace_eq :
    passTrace canonSamples canonTargets 10 (init 4 (-1 : ℤ) 1) =
      [(canonState1, 1), (canonState2, 3), (canonState3, 1), (canonState4, 0)] := by
  norm_num [passTrace, runPass, trainSampleStep, linearCombination, dot,
    pocketUpdate, pocketReplaces, appendRecord, init, zeros, canonSamples,
    canonTargets, canonState1, canonState2, canonState3, canonState4,
    updateWeights_cons, List.replicate, List.zip_cons_cons, List.foldl_cons,
    List.foldl_nil, List.zipWith_cons_cons, List.sum_cons, List.tail_cons]

/-- The final state of `train(canonSamples, canonLabels, 10)` on a fresh
classifier. -/
theorem canonLoop_eq :
    trainLoop canonSamples canonTargets 10 (init 4 (-1 : ℤ) 1) = canonState4 := by
  norm_num [trainLoop, runPass, trainSampleStep, linearCombination, dot,
    pocketUpdate, pocketReplaces, appendRecord, init, zeros, canonSamples,
    canonTargets, canonState4,
    updateWeights_cons, List.replicate, List.zip_cons_cons, List.foldl_cons,
    List.foldl_nil, List.zipWith_cons_cons, List.sum_cons, List.tail_cons]

/-- The call trace of the canonical example as a single `train` call. -/
theorem canonCallTrace_eq :
    callTrace (init 4 (-1 : ℤ) 1) [(canonSamples, canonLabels, 10)] =
      [(canonState1, 1), (canonState2, 3), (canonState3, 1), (canonState4, 0)] := by
  show (match translateLabels (init 4 (-1 : ℤ) 1) canonLabels with
      | none => []
      | some targets =>
          passTrace canonSamples targets (10 : ℤ).toNat (init 4 (-1 : ℤ) 1)) ++
      callTrace (afterTrain (init 4 (-1 : ℤ) 1) canonSamples canonLabels 10) [] = _
  rw [canonTranslate]
  show passTrace canonSamples canonTargets (10 : ℤ).toNat (init 4 (-1 : ℤ) 1) ++ [] = _
  rw [List.append_nil]
  exact canonTrace_eq

/-- The canonical call trace has more than three entries. -/
theorem canonCallTrace_len :
    2 < (callTrace (init 4 (-1 : ℤ) 1) [(canonSamples, canonLabels, 10)]).length := by
  rw [canonCallTrace_eq]
  norm_num

/-- Claim C3: over any sequence of `train` calls on a fresh classifier, the
pocket count observed after each completed pass equals the minimum pass
misclassification count seen so far, and is non-increasing from one
completed pass to the next. -/
theorem claim_C3 [DecidableEq α] (d : ℕ) (l0 l1 : α)
    (calls : List (List Vec × List α × ℤ)) :
    (∀ (k : ℕ), k < (callTrace (init d l0 l1) calls).length →
        (((callTrace (init d l0 l1) calls).map Prod.snd).take (k + 1)).min?
          = ((callTrace (init d l0 l1) calls)[k]?).map
              fun e => e.1.misclassify_count)
      ∧ List.Chain' (fun a b => b.1.misclassify_count ≤ a.1.misclassify_count)
          (callTrace (init d l0 l1) calls) := by
  have hnn : ∀ x ∈ (callTrace (init d l0 l1) calls).map Prod.snd, 0 ≤ x := by
    intro x hx
    rcases List.mem_map.mp hx with ⟨e, he, rfl⟩
    exact callTrace_snd_nonneg calls _ e he
  have hcount : (init d l0 l1 : State α).misclassify_count = -1 := rfl
  have key : ∀ (k : ℕ), k < (callTrace (init d l0 l1) calls).length →
      (((callTrace (init d l0 l1) calls).map Prod.snd).take (k + 1)).min?
        = ((callTrace (init d l0 l1) calls)[k]?).map
            fun e => e.1.misclassify_count := by
    intro k h
    have hc := callTrace_count_getElem calls (init d l0 l1) k h
    rw [hcount] at hc
    rw [List.getElem?_eq_getElem h]
    cases hq : ((callTrace (init d l0 l1) calls).map Prod.snd).take (k + 1) with
    | nil =>
        exfalso
        have hlen := congrArg List.length hq
        simp only [List.length_take, List.length_map, List.length_nil] at hlen
        omega
    | cons a l =>
        have hmem : ∀ x ∈ a :: l, (0 : ℤ) ≤ x := by
          intro x hx
          exact hnn x (List.take_subset (k + 1) _ (hq ▸ hx))
        rw [min?_eq_foldl_combine a l hmem, ← hq]
        exact congrArg some hc.symm
  refine ⟨key, ?_⟩
  rw [List.chain'_iff_get]
  intro i hi
  have h1 : i < (callTrace (init d l0 l1) calls).length := by omega
  have h2 : i + 1 < (callTrace (init d l0 l1) calls).length := by omega
  simp only [List.get_eq_getElem]
  have hc1 := callTrace_count_getElem calls (init d l0 l1) i h1
  have hc2 := callTrace_count_getElem calls (init d l0 l1) (i + 1) h2
  rw [hcount] at hc1 hc2
  rw [hc1, hc2]
  have h2m : i + 1 < ((callTrace (init d l0 l1) calls).map Prod.snd).length := by
    simp only [List.length_map]; exact h2
  have hsucc : ((callTrace (init d l0 l1) calls).map Prod.snd).take (i + 1 + 1)
      = ((callTrace (init d l0 l1) calls).map Prod.snd).take (i + 1) ++
          [((callTrace (init d l0 l1) calls).map Prod.snd)[i + 1]] := by
    rw [List.take_succ]
    rw [List.getElem?_eq_getElem h2m]
    rfl
  rw [hsucc, List.foldl_append]
  have hq0 : 0 ≤ List.foldl combine (-1)
      (((callTrace (init d l0 l1) calls).map Prod.snd).take (i + 1)) := by
    apply foldl_combine_nonneg
    · intro x hx
      exact hnn x (List.take_subset (i + 1) _ hx)
    · intro hnil
      have hlen := congrArg List.length hnil
      simp only [List.length_take, List.length_map, List.length_nil] at hlen
      omega
  have hx0 : 0 ≤ ((callTrace (init d l0 l1) calls).map Prod.snd)[i + 1] :=
    hnn _ (List.getElem_mem h2m)
  simp only [List.foldl_cons, List.foldl_nil]
  exact combine_le _ _ hq0 hx0

/-- Witness for claim C3: the canonical docstring data set as a single
`train` call, checked at pass index 2. -/
theorem claim_C3_witness :
    2 < (callTrace (init 4 (-1 : ℤ) 1) [(canonSamples, canonLabels, 10)]).length
      ∧ (((callTrace (init 4 (-1 : ℤ) 1) [(canonSamples, canonLabels, 10)]).map
            Prod.snd).take 3).min?
          = ((callTrace (init 4 (-1 : ℤ) 1)
              [(canonSamples, canonLabels, 10)])[2]?).map
              fun e => e.1.misclassify_count :=
  ⟨canonCallTrace_len, (claim_C3 4 (-1 : ℤ) 1
    [(canonSamples, canonLabels, 10)]).1 2 canonCallTrace_len⟩

/-- Claim C4: after any `train` call whose label translation succeeds, the
record gains the pocket count (as it stands right after the pocket
comparison) of every completed pass except a final pass that achieved zero
misclassifications, which appends nothing and stops training. -/
theorem claim_C4 [DecidableEq α] (s : State α) (samples : List Vec)
    (labels : List α) (mi : ℤ) (ts : List ℤ)
    (h : translateLabels s labels = some ts) :
    train s samples labels mi = Except.ok (trainLoop samples ts mi.toNat s)
      ∧ (trainLoop samples ts mi.toNat s).misclassify_record =
          s.misclassify_record ++
            (if stoppedAtZero (passTrace samples ts mi.toNat s)
             then ((passTrace samples ts mi.toNat s).map
                fun e => e.1.misclassify_count).dropLast
             else (passTrace samples ts mi.toNat s).map
                fun e => e.1.misclassify_count)
      ∧ (trainLoop samples ts mi.toNat s).misclassify_record.length =
          s.misclassify_record.length +
            (if stoppedAtZero (passTrace samples ts mi.toNat s)
             then (passTrace samples ts mi.toNat s).length - 1
             else (passTrace samples ts mi.toNat s).length) := by
  refine ⟨?_, trainLoop_record samples ts mi.toNat s, ?_⟩
  · unfold train
    rw [h]
  · rw [trainLoop_record samples ts mi.toNat s]
    by_cases hz : stoppedAtZero (passTrace samples ts mi.toNat s)
    · simp [hz, List.length_dropLast]
    · simp [hz]

/-- Witness for claim C4: the canonical data set trained on a fresh
classifier. -/
theorem claim_C4_witness :
    translateLabels (init 4 (-1 : ℤ) 1) canonLabels = some canonTargets
      ∧ (train (init 4 (-1 : ℤ) 1) canonSamples canonLabels 10 =
            Except.ok (trainLoop canonSamples canonTargets (10 : ℤ).toNat
              (init 4 (-1 : ℤ) 1))
          ∧ (trainLoop canonSamples canonTargets (10 : ℤ).toNat
                (init 4 (-1 : ℤ) 1)).misclassify_record =
              (init 4 (-1 : ℤ) 1).misclassify_record ++
                (if stoppedAtZero (passTrace canonSamples canonTargets
                    (10 : ℤ).toNat (init 4 (-1 : ℤ) 1))
                 then ((passTrace canonSamples canonTargets (10 : ℤ).toNat
                    (init 4 (-1 : ℤ) 1)).map
                    fun e => e.1.misclassify_count).dropLast
                 else (passTrace canonSamples canonTargets (10 : ℤ).toNat
                    (init 4 (-1 : ℤ) 1)).map
                    fun e => e.1.misclassify_count)
          ∧ (trainLoop canonSamples canonTargets (10 : ℤ).toNat
                (init 4 (-1 : ℤ) 1)).misclassify_record.length =
              (init 4 (-1 : ℤ) 1).misclassify_record.length +
                (if stoppedAtZero (passTrace canonSamples canonTargets
                    (10 : ℤ).toNat (init 4 (-1 : ℤ) 1))
                 then (passTrace canonSamples canonTargets (10 : ℤ).toNat
                    (init 4 (-1 : ℤ) 1)).length - 1
                 else (passTrace canonSamples canonTargets (10 : ℤ).toNat
                    (init 4 (-1 : ℤ) 1)).length)) :=
  ⟨canonTranslate,
    claim_C4 (init 4 (-1 : ℤ) 1) canonSamples canonLabels 10 canonTargets
      canonTranslate⟩

/-- Claim C1: the spec says a pocket replacement snapshots the current
weight vector and later per-sample updates leave the stored best weights
unchanged until the next replacement.  The code instead stores a reference
(`self.pocket.best_weights = self.weights`, no copy), so on the canonical
data set the replacement at pass 1 is observably overwritten by the weight
updates of pass 2, although pass 2 (count 3 against pocket count 1) does
not replace the pocket. -/
theorem claim_C1_bug :
    passTrace canonSamples canonTargets 10 (init 4 (-1 : ℤ) 1) =
        [(canonState1, 1), (canonState2, 3), (canonState3, 1), (canonState4, 0)]
      ∧ ¬ pocketReplaces canonState1.misclassify_count 3
      ∧ canonState2.misclassify_count = canonState1.misclassify_count
      ∧ bestWeights canonState1 = [-2, -14, -32/5, -47/5, -14/5]
      ∧ bestWeights canonState2 = [0, -8, 1/5, -66/5, -24/5]
      ∧ bestWeights canonState2 ≠ bestWeights canonState1 := by
  refine ⟨canonTrace_eq, ?_, rfl, rfl, rfl, ?_⟩
  · intro h
    rcases h with h | h | h <;> simp [canonState1] at h
  · intro h
    have h2 := congrArg (fun l => List.headD l 0) h
    norm_num [bestWeights, canonState1, canonState2] at h2

/-- Label translation of the two-point small-margin example. -/
theorem sepTranslate :
    translateLabels (init 1 (-1 : ℤ) 1) sepLabels = some sepTargets := by
  decide

/-- Pass misclassification counts of `train(sepSamples, sepLabels, 10)` on
a fresh classifier: ten passes, none of them perfect. -/
theorem sepTrace_counts :
    (passTrace sepSamples sepTargets 10 (init 1 (-1 : ℤ) 1)).map Prod.snd =
      [1, 2, 2, 2, 2, 2, 2, 2, 2, 2] := by
  norm_num [passTrace, runPass, trainSampleStep, linearCombination, dot,
    pocketUpdate, pocketReplaces, appendRecord, init, zeros, sepSamples,
    sepTargets, updateWeights_cons, List.replicate, List.zip_cons_cons,
    List.foldl_cons, List.foldl_nil, List.zipWith_cons_cons, List.sum_cons,
    List.tail_cons]

/-- Counterexample to claim C5: the two-point data set `sepSamples` with
labels from the domain `(-1, 1)` is strictly linearly separable (witness
boundary `20·x - 19`), yet `train` with `max_iterations = 10` runs all ten
passes and no pass achieves zero misclassifications. -/
theorem claim_C5_counterexample :
    strictlySeparates (-19) [20] sepSamples sepLabels (-1 : ℤ) 1
      ∧ translateLabels (init 1 (-1 : ℤ) 1) sepLabels = some sepTargets
      ∧ (passTrace sepSamples sepTargets 10 (init 1 (-1 : ℤ) 1)).map Prod.snd
          = [1, 2, 2, 2, 2, 2, 2, 2, 2, 2]
      ∧ (0 : ℤ) ∉ (passTrace sepSamples sepTargets 10
          (init 1 (-1 : ℤ) 1)).map Prod.snd
      ∧ (passTrace sepSamples sepTargets 10 (init 1 (-1 : ℤ) 1)).length = 10 := by
  refine ⟨⟨rfl, ?_⟩, sepTranslate, sepTrace_counts, ?_, ?_⟩
  · intro p hp
    simp only [sepSamples, sepLabels, List.zip_cons_cons, List.zip_nil_right,
      List.mem_cons, List.not_mem_nil, or_false] at hp
    rcases hp with rfl | rfl <;> constructor <;> intro hlab <;>
      norm_num [dot] at hlab ⊢
  · rw [sepTrace_counts]
    decide
  · have hlen := congrArg List.length sepTrace_counts
    simpa using hlen

/-- Claim C5 amended to the canonical example the spec itself cites: that
data set is strictly separable, `train` with `max_iterations = 10` reaches
a zero-misclassification pass at pass 4 (before exhausting the ten passes),
and `classify` afterwards reproduces every training label. -/
theorem claim_C5_amended :
    strictlySeparates 2 [11/5, 36/5, -52/5, -22/5] canonSamples canonLabels
        (-1 : ℤ) 1
      ∧ train (init 4 (-1 : ℤ) 1) canonSamples canonLabels 10 =
          Except.ok canonState4
      ∧ (passTrace canonSamples canonTargets 10 (init 4 (-1 : ℤ) 1)).length = 4
      ∧ ((passTrace canonSamples canonTargets 10
            (init 4 (-1 : ℤ) 1)).getLast?).map Prod.snd = some 0
      ∧ classify canonState4 canonSamples = canonLabels := by
  refine ⟨⟨rfl, ?_⟩, ?_, ?_, ?_, ?_⟩
  · intro p hp
    simp only [canonSamples, canonLabels, List.zip_cons_cons,
      List.zip_nil_right, List.mem_cons, List.not_mem_nil, or_false] at hp
    rcases hp with rfl | rfl | rfl | rfl | rfl | rfl | rfl | rfl | rfl | rfl |
      rfl | rfl <;> constructor <;> intro hlab <;> norm_num [dot] at hlab ⊢
  · show (match translateLabels (init 4 (-1 : ℤ) 1) canonLabels with
        | none => Except.error (init 4 (-1 : ℤ) 1)
        | some targets =>
            Except.ok (trainLoop canonSamples targets (10 : ℤ).toNat
              (init 4 (-1 : ℤ) 1))) = Except.ok canonState4
    rw [canonTranslate]
    show Except.ok (trainLoop canonSamples canonTargets 10
      (init 4 (-1 : ℤ) 1)) = _
    rw [canonLoop_eq]
  · rw [canonTrace_eq]; rfl
  · rw [canonTrace_eq]; rfl
  · norm_num [classify, label_map, linearCombination, dot, canonState4,
      canonSamples, canonLabels, List.tail_cons]

/-- Claim C6: in the concrete docstring scenario (`d = 4`, labels
`(-1, 1)`, the 12 canonical samples, `train(samples, labels, 10)`), the
call `classify([[6.3,3.3,4.7,1.6],[4.6,3.4,1.4,0.3]])` returns `[1, -1]`. -/
theorem claim_C6 :
    train (init 4 (-1 : ℤ) 1) canonSamples canonLabels 10 =
        Except.ok canonState4
      ∧ classify canonState4 canonNewData = [1, -1] := by
  constructor
  · show (match translateLabels (init 4 (-1 : ℤ) 1) canonLabels with
        | none => Except.error (init 4 (-1 : ℤ) 1)
        | some targets =>
            Except.ok (trainLoop canonSamples targets (10 : ℤ).toNat
              (init 4 (-1 : ℤ) 1))) = Except.ok canonState4
    rw [canonTranslate]
    show Except.ok (trainLoop canonSamples canonTargets 10
      (init 4 (-1 : ℤ) 1)) = _
    rw [canonLoop_eq]
  · norm_num [classify, label_map, linearCombination, dot, canonState4,
      canonNewData, List.tail_cons]

/-- Witness for claim C8 at `d = 1`, labels `(0, 1)`, one iteration. -/
theorem claim_C8_witness :
    (1 : ℤ) ≤ 1
      ∧ (train (init 1 (0 : ℤ) 1) [] [] 1 =
            Except.ok (afterTrain (init 1 (0 : ℤ) 1) [] [] 1)
          ∧ (afterTrain (init 1 (0 : ℤ) 1) [] [] 1).weights = zeros 2
          ∧ bestWeights (afterTrain (init 1 (0 : ℤ) 1) [] [] 1) = zeros 2
          ∧ (afterTrain (init 1 (0 : ℤ) 1) [] [] 1).misclassify_count = 0
          ∧ (afterTrain (init 1 (0 : ℤ) 1) [] [] 1).misclassify_record = []
          ∧ passTrace [] [] (1 : ℤ).toNat (init 1 (0 : ℤ) 1) =
              [(afterTrain (init 1 (0 : ℤ) 1) [] [] 1, 0)]) :=
  ⟨le_refl 1, claim_C8 1 0 1 1 (le_refl 1)⟩

end PocketClassifier
